import Mathlib

/-!
Shallow embedding of the prospect-agent enrichment pipeline
(src/agent.py, src/models.py, src/reducers.py).

External calls (the Hunter.io discovery API, the LinkedIn enrichment API and the
LLM reasoning calls) are modelled as explicit port arguments: an `Except` value
for a single aggregate call, or a function returning `Except` for per-record
calls.  Python dicts that hold one pipeline record are modelled by the fixed
record type `User` with `Option` fields; Python truthiness of optional string
fields is modelled by `truthyOpt`.
-/

namespace ProspectAgent

/-- Run configuration (models.SearchConfig). -/
structure SearchConfig where
  domain : String
  target_role : String
  max_results : Nat
deriving Repr, DecidableEq

/-- The message/event log entries appended by the agent nodes: HumanMessage,
AIMessage and ToolMessage from agent.py. -/
inductive Message where
  | human (content : String)
  | ai (content : String)
  | tool (tool_call_id : String) (tool_name : String) (content : String)
deriving Repr, DecidableEq

/-- One pipeline record (the user dicts built in agent.py, fields per
collect_hunter_data plus the fields added by the later nodes). -/
structure User where
  email : String
  first_name : Option String := none
  last_name : Option String := none
  role : Option String := none
  linkedin_url : Option String := none
  confidence : String := ""
  sources : List String := []
  priority_score : Option Rat := none
  priority_reason : Option String := none
  linkedin_raw : Option String := none
  analysis : Option (List (String × String)) := none
deriving Repr, DecidableEq

/-- agent.AgentState. -/
structure AgentState where
  messages : List Message
  users : List User
  config : SearchConfig
deriving Repr, DecidableEq

/-- One raw contact in the Hunter.io response (the `emails` entries read by
collect_hunter_data). -/
structure Contact where
  value : String
  first_name : Option String := none
  last_name : Option String := none
  position : Option String := none
  linkedin : Option String := none
  confidence : Option String := none
deriving Repr, DecidableEq

deriving instance DecidableEq for Except

/-- Python truthiness of an optional string (`u.get(k)` used as a condition):
missing and empty strings are falsy. -/
def truthyOpt : Option String → Bool
  | none => false
  | some s => s != ""

/-- agent.collect_hunter_data, mapping of one raw contact to a user dict. -/
def contactToUser (c : Contact) : User :=
  { email := c.value
    first_name := c.first_name
    last_name := c.last_name
    role := c.position
    linkedin_url := c.linkedin
    confidence := c.confidence.getD ""
    sources := ["hunter"] }

/-- agent.collect_hunter_data: the hunter port result is either the list of raw
contacts or the raised exception's text. -/
def collect_hunter_data (hunter : Except String (List Contact)) (st : AgentState) :
    AgentState :=
  match hunter with
  | Except.ok emails =>
    let users := emails.map contactToUser
    { messages := st.messages ++
        [Message.tool "hunter_success" "hunter"
          ("Hentet " ++ toString users.length ++ " kontakter")]
      users := users
      config := st.config }
  | Except.error e =>
    { messages := st.messages ++ [Message.tool "hunter_error" "hunter" ("Feil: " ++ e)]
      users := []
      config := st.config }

/-- models.PriorityUser before pydantic validation (the parsed JSON the LLM
returned inside prioritize_users). -/
structure PriorityUserRaw where
  email : String
  score : Rat
  reason : String
deriving Repr, DecidableEq

/-- models.PriorityUser after validation (email lower-cased). -/
structure PriorityUser where
  email : String
  score : Rat
  reason : String
deriving Repr, DecidableEq

/-- Python `c in s` on a string, over the character list (so that it reduces in
the kernel). -/
def containsChar (s : String) (c : Char) : Bool := s.data.contains c

/-- Python `s.lower()`, over the character list. -/
def lowerString (s : String) : String := String.mk (s.data.map Char.toLower)

/-- models.PriorityUser.validate_email: requires an `@`, standardises to lower
case. -/
def validate_email (v : String) : Except String String :=
  if containsChar v '@' then Except.ok (lowerString v)
  else Except.error "Ugyldig email format"

/-- Validation of one models.PriorityUser: the Field bounds ge=0, le=1 on
`score` and the email validator. -/
def validatePriorityUser (r : PriorityUserRaw) : Except String PriorityUser :=
  if 0 ≤ r.score ∧ r.score ≤ 1 then
    match validate_email r.email with
    | Except.ok e => Except.ok { email := e, score := r.score, reason := r.reason }
    | Except.error err => Except.error err
  else Except.error "Prioriteringsscore utenfor intervallet"

/-- Validation of the `users` field of models.PriorityAnalysis, one user at a
time (first error wins). -/
def validateUserList : List PriorityUserRaw → Except String (List PriorityUser)
  | [] => Except.ok []
  | r :: rs =>
    match validatePriorityUser r, validateUserList rs with
    | Except.ok u, Except.ok us => Except.ok (u :: us)
    | Except.error e, _ => Except.error e
    | _, Except.error e => Except.error e

/-- `PriorityAnalysis(**json.loads(response.content))` in prioritize_users: the
scoring port yields either the parsed user list or an error (transport or JSON
failure); pydantic then validates each user and models.PriorityAnalysis's
validate_users rejects an empty list. -/
def parsePriorityAnalysis (sport : Except String (List PriorityUserRaw)) :
    Except String (List PriorityUser) :=
  match sport with
  | Except.error e => Except.error e
  | Except.ok raws =>
    match validateUserList raws with
    | Except.error e => Except.error e
    | Except.ok [] => Except.error "Prioriteringsanalyse må inneholde minst én bruker"
    | Except.ok us => Except.ok us

/-- The per-user match-and-update step of prioritize_users: a user is kept iff
its email is among the analysis users; the first matching analysis entry
supplies score and reason and the `prioritized` tag is appended. -/
def prioritizeUser (pusers : List PriorityUser) (u : User) : Option User :=
  (pusers.find? (fun p => p.email == u.email)).map (fun p =>
    { u with
      priority_score := some p.score
      priority_reason := some p.reason
      sources := u.sources ++ ["prioritized"] })

/-- agent.prioritize_users. -/
def prioritize_users (sport : Except String (List PriorityUserRaw)) (st : AgentState) :
    AgentState :=
  let users_with_roles := st.users.filter (fun u => truthyOpt u.role)
  if users_with_roles.isEmpty then
    { messages := st.messages ++ [Message.human "Ingen brukere med roller funnet"]
      users := []
      config := st.config }
  else
    match parsePriorityAnalysis sport with
    | Except.ok pusers =>
      let prioritized := users_with_roles.filterMap (prioritizeUser pusers)
      { messages := st.messages ++
          [Message.ai ("Prioriterte " ++ toString prioritized.length ++ " brukere")]
        users := prioritized
        config := st.config }
    | Except.error e =>
      { messages := st.messages ++ [Message.human ("Feil i prioritering: " ++ e)]
        users := st.users
        config := st.config }

/-- The eligibility filter of agent.get_linkedin_data:
`"prioritized" in u.get("sources", []) and u.get("linkedin_url")`. -/
def enrichEligible (u : User) : Bool :=
  decide ("prioritized" ∈ u.sources) && truthyOpt u.linkedin_url

/-- The URL passed to the linkedin tool (eligible users always carry a
non-empty one). -/
def urlOf (u : User) : String := u.linkedin_url.getD ""

/-- Per-user body of the get_linkedin_data loop: on port success the user gains
`linkedin_raw` and the `linkedin` tag; on failure nothing is appended to the
enriched list. -/
def enrichUser (lport : String → Except String String) (u : User) : Option User :=
  match lport (urlOf u) with
  | Except.ok data =>
    some { u with linkedin_raw := some data, sources := u.sources ++ ["linkedin"] }
  | Except.error _ => none

/-- Per-user message appended by the get_linkedin_data loop. -/
def linkedinMsg (lport : String → Except String String) (u : User) : Message :=
  match lport (urlOf u) with
  | Except.ok _ =>
    Message.tool ("linkedin_" ++ u.email) "linkedin" ("Hentet LinkedIn data for " ++ u.email)
  | Except.error e =>
    Message.tool ("linkedin_error_" ++ u.email) "linkedin" ("Feil: " ++ e)

/-- agent.get_linkedin_data.  The source loop appends to `enriched` and
`messages` in one pass; that is rendered as `filterMap` and `map` over the same
eligible list.  `enriched or state["users"]` is the empty-list test. -/
def get_linkedin_data (lport : String → Except String String) (st : AgentState) :
    AgentState :=
  let prioritized_users := st.users.filter enrichEligible
  if prioritized_users.isEmpty then
    { messages := st.messages ++ [Message.human "Ingen brukere å berike"]
      users := st.users
      config := st.config }
  else
    let enriched := prioritized_users.filterMap (enrichUser lport)
    let msgs := prioritized_users.map (linkedinMsg lport)
    { messages := st.messages ++ msgs
      users := if enriched.isEmpty then st.users else enriched
      config := st.config }

/-- The per-analysis-type inner loop of agent.analyze_profiles: each analysis
type whose reasoning call succeeds contributes an entry; a failing call is
caught, only logged, and contributes nothing. -/
def analysisResults (types : List String) (aport : User → String → Except String String)
    (u : User) : List (String × String) :=
  types.filterMap (fun t =>
    match aport u t with
    | Except.ok r => some (t, r)
    | Except.error _ => none)

/-- Per-user body of the analyze_profiles outer loop.  The outer try fails only
on the `user["linkedin_raw"]` access; otherwise the user always gains the
`analysis` bundle (possibly empty) and the `analyzed` tag. -/
def analyzeUser (types : List String) (aport : User → String → Except String String)
    (u : User) : Option User :=
  match u.linkedin_raw with
  | some _ =>
    some { u with
      analysis := some (analysisResults types aport u)
      sources := u.sources ++ ["analyzed"] }
  | none => none

/-- Per-user message appended by the analyze_profiles loop. -/
def analyzeMsg (u : User) : Message :=
  match u.linkedin_raw with
  | some _ =>
    Message.tool ("analyze_" ++ u.email) "analyze" ("Analyserte profil for " ++ u.email)
  | none =>
    Message.tool ("analyze_error_" ++ u.email) "analyze" "Feil: KeyError linkedin_raw"

/-- agent.analyze_profiles, rendered like get_linkedin_data. -/
def analyze_profiles (types : List String) (aport : User → String → Except String String)
    (st : AgentState) : AgentState :=
  let users_to_analyze := st.users.filter (fun u => decide ("linkedin" ∈ u.sources))
  if users_to_analyze.isEmpty then
    { messages := st.messages ++ [Message.human "Ingen profiler å analysere"]
      users := st.users
      config := st.config }
  else
    let analyzed := users_to_analyze.filterMap (analyzeUser types aport)
    let msgs := users_to_analyze.map analyzeMsg
    { messages := st.messages ++ msgs
      users := if analyzed.isEmpty then st.users else analyzed
      config := st.config }

/-- The compiled workflow of agent.create_workflow on an initial empty state:
collect → prioritize → get_linkedin_data → analyze.  The conditional edge after
`collect` only short-circuits an empty user list, which every later node passes
through, and `tools_condition` routes to the terminal node because
analyze_profiles appends plain ToolMessages, so the linear composition is the
executed flow. -/
def runPipeline (hunter : Except String (List Contact))
    (sport : Except String (List PriorityUserRaw))
    (lport : String → Except String String)
    (types : List String) (aport : User → String → Except String String)
    (cfg : SearchConfig) : AgentState :=
  let s0 : AgentState := { messages := [], users := [], config := cfg }
  let s1 := collect_hunter_data hunter s0
  let s2 := prioritize_users sport s1
  let s3 := get_linkedin_data lport s2
  analyze_profiles types aport s3

/-! The dedup/merge reducer of src/reducers.py.

`add_users` normalises every incoming dict through `UserBase(**user).model_dump()`
and merges with Python dict operations.  `UserBase` is imported from models.py
but models.py (under src/) does not define it, so it is modelled from the spec. -/

/-- Modelled from the spec: `UserBase` is absent from src/models.py although
src/reducers.py imports it.  Per §3 of the spec a record carries the identity
key, the optional attribute fields, the enrichment bundle and `sources`, so
`UserBase` is taken to be exactly the record schema, i.e. the type `User`
above; its pydantic `model_dump()` is then the identity on records, and — as a
plain `model_dump()` — it emits every field, null-valued ones included.
`dumpUpdate old new` is Python `old_dump.update(new_dump)` over two dumps with
this identical key set: every field of `new`, null or not, overwrites. -/
def dumpUpdate (_old new : User) : User :=
  { email := new.email
    first_name := new.first_name
    last_name := new.last_name
    role := new.role
    linkedin_url := new.linkedin_url
    confidence := new.confidence
    sources := new.sources
    priority_score := new.priority_score
    priority_reason := new.priority_reason
    linkedin_raw := new.linkedin_raw
    analysis := new.analysis }

/-- First-match lookup in an association list (Python `dict[k]`). -/
def lookupKey : List (String × User) → String → Option User
  | [], _ => none
  | p :: rest, k => if p.1 = k then some p.2 else lookupKey rest k

/-- Python `k in dict`. -/
def hasKey (m : List (String × User)) (k : String) : Bool :=
  m.any (fun p => p.1 == k)

/-- Python `dict[k] = v`: replace in place when the key exists, else append. -/
def dictSet (m : List (String × User)) (k : String) (v : User) : List (String × User) :=
  if hasKey m k then m.map (fun p => if p.1 = k then (k, v) else p)
  else m ++ [(k, v)]

/-- One step of the dict comprehension over `old_users` in reducers.add_users. -/
def insStep (m : List (String × User)) (u : User) : List (String × User) :=
  dictSet m u.email u

/-- One step of the `for new_user in new_users` loop in reducers.add_users. -/
def updStep (m : List (String × User)) (u : User) : List (String × User) :=
  match lookupKey m u.email with
  | some old_v => dictSet m u.email (dumpUpdate old_v u)
  | none => m ++ [(u.email, u)]

/-- reducers.add_users: build the email-keyed dict from `old_users`, fold the
update/insert loop over `new_users`, return the dict's values in order. -/
def add_users (old_users new_users : List User) : List User :=
  (new_users.foldl updStep (old_users.foldl insStep [])).map Prod.snd

/-! Concrete fixtures used by the closed counterexample and witness theorems. -/

/-- A small run configuration. -/
def cfg0 : SearchConfig := { domain := "x.com", target_role := "CEO", max_results := 5 }

/-- The initial state of agent.analyze_domain. -/
def emptyState : AgentState := { messages := [], users := [], config := cfg0 }

/-- A record with no role (ineligible for the scoring stage). -/
def uNoRole : User := { email := "b@x.com", sources := ["hunter"] }

/-- A state holding only the role-less record. -/
def stNoRole : AgentState := { messages := [], users := [uNoRole], config := cfg0 }

/-- Old record for the merge counterexample: non-null role, sources {hunter}. -/
def oldRec : User := { email := "a@x.com", role := some "CEO", sources := ["hunter"] }

/-- New record for the merge counterexample: null role, sources {prioritized}. -/
def newRec : User := { email := "a@x.com", role := none, sources := ["prioritized"] }

/-- First of two records eligible for enrichment. -/
def uP1 : User :=
  { email := "p1@x.com", role := some "CTO", linkedin_url := some "l1",
    sources := ["hunter", "prioritized"] }

/-- Second of two records eligible for enrichment. -/
def uP2 : User :=
  { email := "p2@x.com", role := some "CTO", linkedin_url := some "l2",
    sources := ["hunter", "prioritized"] }

/-- A state holding the two enrichment-eligible records. -/
def stP12 : AgentState := { messages := [], users := [uP1, uP2], config := cfg0 }

/-- Enrichment port that succeeds for l1 and fails for l2. -/
def portFail2 : String → Except String String :=
  fun url => if url = "l1" then Except.ok "D1" else Except.error "boom"

/-- Enrichment port that always succeeds. -/
def portOk : String → Except String String := fun _ => Except.ok "D"

/-- Record carrying the scoring tag, a profile reference and score 0. -/
def uScore0 : User :=
  { email := "a@x.com", role := some "CTO", linkedin_url := some "L",
    sources := ["hunter", "prioritized"], priority_score := some 0,
    priority_reason := some "r" }

/-- A state holding only the score-0 record. -/
def stScore0 : AgentState := { messages := [], users := [uScore0], config := cfg0 }

/-- A state mixing one ineligible and one eligible record. -/
def stMix : AgentState := { messages := [], users := [uNoRole, uScore0], config := cfg0 }

/-- Raw hunter contact with an upper-case email. -/
def cUpper : Contact := { value := "A@X.com" }

/-- Raw hunter contact that occurs twice in the discovery data. -/
def cDup : Contact := { value := "a@x.com", position := some "CEO", linkedin := some "li" }

/-- Scoring-port result matching cDup's email. -/
def praDup : PriorityUserRaw := { email := "a@x.com", score := 1, reason := "match" }

/-- A roled, untagged user for the scoring-outage witness. -/
def uRoled : User := { email := "r@x.com", role := some "CEO", sources := ["hunter"] }

/-- A state holding only the roled user. -/
def stRoled : AgentState := { messages := [], users := [uRoled], config := cfg0 }

/-- Analysis port whose every call fails. -/
def aportFail : User → String → Except String String := fun _ _ => Except.error "schema"

/-- A user as it stands after successful enrichment. -/
def uLk : User :=
  { email := "p1@x.com", role := some "CTO", linkedin_url := some "l1",
    sources := ["hunter", "prioritized", "linkedin"],
    priority_score := some 1, priority_reason := some "r",
    linkedin_raw := some "D1" }

/-- A state holding only the enriched user. -/
def stLk : AgentState := { messages := [], users := [uLk], config := cfg0 }

/-! Theorems. -/

theorem enrichEligible_iff (u : User) :
    enrichEligible u = true ↔ "prioritized" ∈ u.sources ∧ truthyOpt u.linkedin_url = true := by
  simp [enrichEligible]

/-- C9: the enrichment-stage functions are all-or-only-successes: when at least
one eligible record is processed successfully the stage's output record list is
exactly the list of successfully processed records (failed and ineligible
records are absent), and when no record succeeds the output record list is the
entire input record list unchanged; this holds for both get_linkedin_data and
analyze_profiles. -/
theorem C9_all_or_only_successes (lport : String → Except String String)
    (types : List String) (aport : User → String → Except String String)
    (st : AgentState) :
    ((get_linkedin_data lport st).users =
      if ((st.users.filter enrichEligible).filterMap (enrichUser lport)).isEmpty
      then st.users
      else (st.users.filter enrichEligible).filterMap (enrichUser lport)) ∧
    ((analyze_profiles types aport st).users =
      if ((st.users.filter (fun u => decide ("linkedin" ∈ u.sources))).filterMap
            (analyzeUser types aport)).isEmpty
      then st.users
      else (st.users.filter (fun u => decide ("linkedin" ∈ u.sources))).filterMap
            (analyzeUser types aport)) := by
  constructor
  · by_cases h : (st.users.filter enrichEligible).isEmpty = true
    · have hnil : st.users.filter enrichEligible = [] := List.isEmpty_iff.mp h
      simp [get_linkedin_data, h, hnil]
    · simp [get_linkedin_data, h]
  · by_cases h :
        (st.users.filter (fun u => decide ("linkedin" ∈ u.sources))).isEmpty = true
    · have hnil : st.users.filter (fun u => decide ("linkedin" ∈ u.sources)) = [] :=
        List.isEmpty_iff.mp h
      simp [analyze_profiles, h, hnil]
    · simp [analyze_profiles, h]

/-- C10: in analyze_profiles a record is tagged `analyzed` and a success event
is emitted even when every per-analysis-type reasoning call for it fails: the
per-type exceptions are only logged, the record carries the `analyzed` tag with
an empty analysis bundle, and the event log reports success for it. -/
theorem C10_success_despite_all_analysis_failures
    (types : List String) (aport : User → String → Except String String)
    (st : AgentState) (u : User) (raw : String)
    (hmem : u ∈ st.users) (htag : "linkedin" ∈ u.sources)
    (hraw : u.linkedin_raw = some raw)
    (hfail : ∀ t ∈ types, ∃ e, aport u t = Except.error e) :
    analyzeUser types aport u =
      some { u with analysis := some [], sources := u.sources ++ ["analyzed"] } ∧
    { u with analysis := some [], sources := u.sources ++ ["analyzed"] }
      ∈ (analyze_profiles types aport st).users ∧
    Message.tool ("analyze_" ++ u.email) "analyze" ("Analyserte profil for " ++ u.email)
      ∈ (analyze_profiles types aport st).messages := by
  have hres : analysisResults types aport u = [] := by
    rw [analysisResults, List.filterMap_eq_nil_iff]
    intro t ht
    obtain ⟨e, he⟩ := hfail t ht
    simp [he]
  have hA : analyzeUser types aport u =
      some { u with analysis := some [], sources := u.sources ++ ["analyzed"] } := by
    simp [analyzeUser, hraw, hres]
  refine ⟨hA, ?_, ?_⟩
  · have humem : u ∈ st.users.filter (fun u => decide ("linkedin" ∈ u.sources)) :=
      List.mem_filter.mpr ⟨hmem, by simpa using htag⟩
    have hAmem : { u with analysis := some [], sources := u.sources ++ ["analyzed"] }
        ∈ (st.users.filter (fun u => decide ("linkedin" ∈ u.sources))).filterMap
            (analyzeUser types aport) :=
      List.mem_filterMap.mpr ⟨u, humem, hA⟩
    have hfe : (st.users.filter (fun u => decide ("linkedin" ∈ u.sources))).isEmpty ≠ true := by
      intro hc
      rw [List.isEmpty_iff] at hc
      rw [hc] at humem
      cases humem
    have hae : ((st.users.filter (fun u => decide ("linkedin" ∈ u.sources))).filterMap
        (analyzeUser types aport)).isEmpty ≠ true := by
      intro hc
      rw [List.isEmpty_iff] at hc
      rw [hc] at hAmem
      cases hAmem
    simp only [analyze_profiles, hfe, if_false, eq_false hfe, eq_false hae]
    simpa [eq_false hfe, eq_false hae] using hAmem
  · have humem : u ∈ st.users.filter (fun u => decide ("linkedin" ∈ u.sources)) :=
      List.mem_filter.mpr ⟨hmem, by simpa using htag⟩
    have hfe : (st.users.filter (fun u => decide ("linkedin" ∈ u.sources))).isEmpty ≠ true := by
      intro hc
      rw [List.isEmpty_iff] at hc
      rw [hc] at humem
      cases humem
    have hmsg : analyzeMsg u =
        Message.tool ("analyze_" ++ u.email) "analyze"
          ("Analyserte profil for " ++ u.email) := by
      simp [analyzeMsg, hraw]
    simp only [analyze_profiles, eq_false hfe, if_false]
    exact List.mem_append.mpr (Or.inr (List.mem_map.mpr ⟨u, humem, hmsg⟩))

/-- C10 witness: a concrete enriched user with a single analysis type whose
reasoning call always fails still ends up tagged `analyzed` with an empty
bundle in the stage output. -/
theorem C10_witness :
    { uLk with analysis := some [], sources := uLk.sources ++ ["analyzed"] }
      ∈ (analyze_profiles ["career"] aportFail stLk).users :=
  (C10_success_despite_all_analysis_failures ["career"] aportFail stLk uLk "D1"
    (by decide) (by decide) (by decide)
    (fun t _ => ⟨"schema", rfl⟩)).2.1

theorem get_linkedin_output_of_success (lport : String → Except String String)
    (st : AgentState) (v : User) (d : String)
    (hv : v ∈ st.users) (hve : enrichEligible v = true)
    (hok : lport (urlOf v) = Except.ok d) :
    (get_linkedin_data lport st).users =
      (st.users.filter enrichEligible).filterMap (enrichUser lport) ∧
    (get_linkedin_data lport st).messages =
      st.messages ++ (st.users.filter enrichEligible).map (linkedinMsg lport) := by
  have humem : v ∈ st.users.filter enrichEligible := List.mem_filter.mpr ⟨hv, hve⟩
  have henr : enrichUser lport v =
      some { v with linkedin_raw := some d, sources := v.sources ++ ["linkedin"] } := by
    simp [enrichUser, hok]
  have hEmem : { v with linkedin_raw := some d, sources := v.sources ++ ["linkedin"] }
      ∈ (st.users.filter enrichEligible).filterMap (enrichUser lport) :=
    List.mem_filterMap.mpr ⟨v, humem, henr⟩
  have hfe : (st.users.filter enrichEligible).isEmpty ≠ true := by
    intro hc
    rw [List.isEmpty_iff] at hc
    rw [hc] at humem
    cases humem
  have hee : ((st.users.filter enrichEligible).filterMap (enrichUser lport)).isEmpty ≠ true := by
    intro hc
    rw [List.isEmpty_iff] at hc
    rw [hc] at hEmem
    cases hEmem
  constructor
  · simp only [get_linkedin_data, eq_false hfe, if_false, eq_false hee]
  · simp only [get_linkedin_data, eq_false hfe, if_false]

/-- C3 amended: in get_linkedin_data, for an eligible record whose enrichment
port call fails, no partially mutated version of it is produced; when any
sibling's call succeeds the failed record is absent from the stage output
(passed through unchanged only when no record succeeds — the stage then returns
its whole input); exactly one failure event is appended for it, and every
sibling whose call succeeds appears fully enriched with its success event,
unaffected by the failure. -/
theorem C3_amended_isolation (lport : String → Except String String) (st : AgentState)
    (u v : User) (d e : String)
    (hu : u ∈ st.users) (hue : enrichEligible u = true)
    (hufail : lport (urlOf u) = Except.error e)
    (hv : v ∈ st.users) (hve : enrichEligible v = true)
    (hvok : lport (urlOf v) = Except.ok d) :
    enrichUser lport u = none ∧
    u ∉ (get_linkedin_data lport st).users ∧
    Message.tool ("linkedin_error_" ++ u.email) "linkedin" ("Feil: " ++ e)
      ∈ (get_linkedin_data lport st).messages ∧
    { v with linkedin_raw := some d, sources := v.sources ++ ["linkedin"] }
      ∈ (get_linkedin_data lport st).users ∧
    Message.tool ("linkedin_" ++ v.email) "linkedin" ("Hentet LinkedIn data for " ++ v.email)
      ∈ (get_linkedin_data lport st).messages := by
  obtain ⟨husers, hmsgs⟩ := get_linkedin_output_of_success lport st v d hv hve hvok
  have humem : u ∈ st.users.filter enrichEligible := List.mem_filter.mpr ⟨hu, hue⟩
  have hvmem : v ∈ st.users.filter enrichEligible := List.mem_filter.mpr ⟨hv, hve⟩
  have henru : enrichUser lport u = none := by
    simp [enrichUser, hufail]
  refine ⟨henru, ?_, ?_, ?_, ?_⟩
  · rw [husers]
    intro hmemu
    obtain ⟨w, hwmem, hw⟩ := List.mem_filterMap.mp hmemu
    unfold enrichUser at hw
    cases hok : lport (urlOf w) with
    | error e2 =>
      rw [hok] at hw
      cases hw
    | ok data =>
      rw [hok] at hw
      have hwu : u = { w with linkedin_raw := some data, sources := w.sources ++ ["linkedin"] } := by
        injection hw with h
        exact h.symm
      have hurl : urlOf u = urlOf w := by
        rw [hwu]
        rfl
      rw [hurl, hok] at hufail
      cases hufail
  · rw [hmsgs]
    refine List.mem_append.mpr (Or.inr (List.mem_map.mpr ⟨u, humem, ?_⟩))
    simp [linkedinMsg, hufail]
  · rw [husers]
    exact List.mem_filterMap.mpr ⟨v, hvmem, by simp [enrichUser, hvok]⟩
  · rw [hmsgs]
    refine List.mem_append.mpr (Or.inr (List.mem_map.mpr ⟨v, hvmem, ?_⟩))
    simp [linkedinMsg, hvok]

/-- C3 counterexample: two eligible records, the port fails for the second;
contrary to the claim, the failed record is not present in the stage output at
all (the output is only the first, enriched). -/
theorem C3_counterexample :
    uP2 ∈ stP12.users ∧ enrichEligible uP2 = true ∧
    portFail2 (urlOf uP2) = Except.error "boom" ∧
    uP2 ∉ (get_linkedin_data portFail2 stP12).users ∧
    (get_linkedin_data portFail2 stP12).users =
      [{ uP1 with linkedin_raw := some "D1", sources := uP1.sources ++ ["linkedin"] }] := by
  decide

/-- C3 witness: the amended isolation theorem applied to the concrete
two-record state where the port fails for the second record. -/
theorem C3_amended_witness :
    { uP1 with linkedin_raw := some "D1", sources := uP1.sources ++ ["linkedin"] }
      ∈ (get_linkedin_data portFail2 stP12).users :=
  (C3_amended_isolation portFail2 stP12 uP2 uP1 "D1" "boom"
    (by decide) (by decide) (by decide) (by decide) (by decide) (by decide)).2.2.2.1

/-- C4: when the scoring stage's single aggregate reasoning-port call fails,
prioritize_users passes all original input records through unchanged and
unscored (no priority_score set, no `prioritized` tag added), records exactly
one failure event, and get_linkedin_data subsequently attempts no enrichment on
those records (its eligible set is empty, since enrichment requires the
`prioritized` tag, and it returns the record list unchanged). -/
theorem C4_scoring_outage (e : String) (st : AgentState)
    (lport : String → Except String String)
    (hroles : (st.users.filter (fun u => truthyOpt u.role)).isEmpty = false)
    (htags : ∀ u ∈ st.users, "prioritized" ∉ u.sources) :
    (prioritize_users (Except.error e) st).users = st.users ∧
    (prioritize_users (Except.error e) st).messages =
      st.messages ++ [Message.human ("Feil i prioritering: " ++ e)] ∧
    st.users.filter enrichEligible = [] ∧
    (get_linkedin_data lport (prioritize_users (Except.error e) st)).users = st.users ∧
    (get_linkedin_data lport (prioritize_users (Except.error e) st)).messages =
      st.messages ++ [Message.human ("Feil i prioritering: " ++ e),
                      Message.human "Ingen brukere å berike"] := by
  have hp : prioritize_users (Except.error e) st =
      { messages := st.messages ++ [Message.human ("Feil i prioritering: " ++ e)]
        users := st.users
        config := st.config } := by
    simp [prioritize_users, hroles, parsePriorityAnalysis]
  have hfil : st.users.filter enrichEligible = [] := by
    rw [List.filter_eq_nil_iff]
    intro u hu
    have hni := htags u hu
    simp [enrichEligible, hni]
  have hfe : (st.users.filter enrichEligible).isEmpty = true := by
    rw [hfil]
    rfl
  refine ⟨by rw [hp], by rw [hp], hfil, ?_, ?_⟩
  · rw [hp]
    simp only [get_linkedin_data, hfe, if_true]
  · rw [hp]
    simp only [get_linkedin_data, hfe, if_true]
    rw [List.append_assoc]
    rfl

/-- C4 witness: the scoring-outage theorem applied to a concrete one-record
state. -/
theorem C4_witness :
    (get_linkedin_data portOk (prioritize_users (Except.error "boom") stRoled)).users
      = stRoled.users :=
  (C4_scoring_outage "boom" stRoled portOk (by decide) (by decide)).2.2.2.1

/-- C5 amended: a record is processed by get_linkedin_data iff it carries the
`prioritized` tag in sources and a truthy (non-null, non-empty) linkedin_url;
the score is not consulted at all — eligibility is invariant under changing
priority_score — so a record with the tag and a profile reference but score 0
is still enriched. -/
theorem C5_amended_eligibility :
    (∀ u : User, enrichEligible u =
      (decide ("prioritized" ∈ u.sources) && truthyOpt u.linkedin_url)) ∧
    (∀ (u : User) (s : Option Rat) (r : Option String),
      enrichEligible { u with priority_score := s, priority_reason := r } = enrichEligible u) ∧
    (∀ (lport : String → Except String String) (st : AgentState) (u : User) (d : String),
      u ∈ st.users → enrichEligible u = true → lport (urlOf u) = Except.ok d →
      { u with linkedin_raw := some d, sources := u.sources ++ ["linkedin"] }
        ∈ (get_linkedin_data lport st).users) := by
  refine ⟨fun u => rfl, fun u s r => rfl, ?_⟩
  intro lport st u d hu hue hok
  obtain ⟨husers, _⟩ := get_linkedin_output_of_success lport st u d hu hue hok
  rw [husers]
  exact List.mem_filterMap.mpr ⟨u, List.mem_filter.mpr ⟨hu, hue⟩, by simp [enrichUser, hok]⟩

/-- C5 counterexample: a record with the scoring tag, a profile reference and
score exactly 0 is processed and enriched by get_linkedin_data, contradicting
the claim that score > 0 is required. -/
theorem C5_counterexample :
    uScore0.priority_score = some 0 ∧ "prioritized" ∈ uScore0.sources ∧
    enrichEligible uScore0 = true ∧
    (get_linkedin_data portOk stScore0).users =
      [{ uScore0 with linkedin_raw := some "D", sources := uScore0.sources ++ ["linkedin"] }] := by
  decide

/-- C5 witness: the amended eligibility theorem applied to the concrete
score-0 record. -/
theorem C5_amended_witness :
    { uScore0 with linkedin_raw := some "D", sources := uScore0.sources ++ ["linkedin"] }
      ∈ (get_linkedin_data portOk stScore0).users :=
  C5_amended_eligibility.2.2 portOk stScore0 uScore0 "D" (by decide) (by decide) (by decide)

/-- C6 amended: collect_hunter_data creates, for every raw discovered contact,
a record whose identity key is the contact's email exactly as reported (no
lower-casing) with `["hunter"]` as initial sources; lower-casing happens only
in models.PriorityUser.validate_email, applied to the scoring port's returned
emails. -/
theorem C6_amended_collect (contacts : List Contact) (st : AgentState)
    (s : String) (hs : containsChar s '@' = true) :
    (collect_hunter_data (Except.ok contacts) st).users = contacts.map contactToUser ∧
    (∀ c : Contact, (contactToUser c).email = c.value ∧ (contactToUser c).sources = ["hunter"]) ∧
    validate_email s = Except.ok (lowerString s) := by
  refine ⟨rfl, fun c => ⟨rfl, rfl⟩, ?_⟩
  simp [validate_email, hs]

/-- C6 counterexample: a contact with an upper-case email yields a record whose
identity key is the email verbatim, not lower-cased. -/
theorem C6_counterexample :
    (collect_hunter_data (Except.ok [cUpper]) emptyState).users.map User.email
      = ["A@X.com"] ∧
    lowerString "A@X.com" = "a@x.com" ∧ ("A@X.com" : String) ≠ "a@x.com" := by
  decide

/-- C6 witness: the amended collection theorem applied to the concrete
upper-case contact and email. -/
theorem C6_witness :
    validate_email "A@X.com" = Except.ok (lowerString "A@X.com") :=
  (C6_amended_collect [cUpper] emptyState "A@X.com" (by decide)).2.2

theorem dumpUpdate_eq (a b : User) : dumpUpdate a b = b := rfl

theorem hasKey_iff (m : List (String × User)) (k : String) :
    hasKey m k = true ↔ ∃ p ∈ m, p.1 = k := by
  simp [hasKey, List.any_eq_true, beq_iff_eq]

theorem lookupKey_none_iff (m : List (String × User)) (k : String) :
    lookupKey m k = none ↔ ∀ p ∈ m, p.1 ≠ k := by
  induction m with
  | nil => simp [lookupKey]
  | cons p rest ih =>
    by_cases h : p.1 = k
    · simp [lookupKey, h]
    · simp [lookupKey, h, ih]

theorem lookupKey_some_mem (m : List (String × User)) (k : String) (v : User)
    (h : lookupKey m k = some v) : ∃ p ∈ m, p.1 = k := by
  induction m with
  | nil => cases h
  | cons p rest ih =>
    by_cases hp : p.1 = k
    · exact ⟨p, List.mem_cons_self p rest, hp⟩
    · rw [lookupKey, if_neg hp] at h
      obtain ⟨q, hq, hqk⟩ := ih h
      exact ⟨q, List.mem_cons_of_mem p hq, hqk⟩

theorem hasKey_of_lookupKey_some (m : List (String × User)) (k : String) (v : User)
    (h : lookupKey m k = some v) : hasKey m k = true := by
  obtain ⟨p, hp, hpk⟩ := lookupKey_some_mem m k v h
  exact (hasKey_iff m k).mpr ⟨p, hp, hpk⟩

theorem keys_map_replace (m : List (String × User)) (k : String) (v : User) :
    (m.map (fun p => if p.1 = k then (k, v) else p)).map Prod.fst = m.map Prod.fst := by
  induction m with
  | nil => rfl
  | cons p rest ih =>
    by_cases h : p.1 = k
    · simp [h, ih]
    · simp [h, ih]

theorem keys_dictSet_nodup (m : List (String × User)) (k : String) (v : User)
    (h : (m.map Prod.fst).Nodup) : ((dictSet m k v).map Prod.fst).Nodup := by
  unfold dictSet
  by_cases hk : hasKey m k = true
  · rw [if_pos hk, keys_map_replace]
    exact h
  · rw [if_neg hk]
    have hnk : k ∉ m.map Prod.fst := by
      intro hmem
      obtain ⟨p, hp, hpk⟩ := List.mem_map.mp hmem
      exact hk ((hasKey_iff m k).mpr ⟨p, hp, hpk⟩)
    rw [List.map_append]
    refine List.Nodup.append h (List.nodup_singleton k) ?_
    intro a ha hb
    simp at hb
    subst hb
    exact hnk ha

theorem keys_updStep_nodup (m : List (String × User)) (u : User)
    (h : (m.map Prod.fst).Nodup) : ((updStep m u).map Prod.fst).Nodup := by
  unfold updStep
  cases hl : lookupKey m u.email with
  | some old_v => exact keys_dictSet_nodup m u.email (dumpUpdate old_v u) h
  | none =>
    have hnk : u.email ∉ m.map Prod.fst := by
      intro hmem
      obtain ⟨p, hp, hpk⟩ := List.mem_map.mp hmem
      exact absurd hpk ((lookupKey_none_iff m u.email).mp hl p hp)
    rw [List.map_append]
    refine List.Nodup.append h (List.nodup_singleton u.email) ?_
    intro a ha hb
    simp at hb
    subst hb
    exact hnk ha

theorem goodPairs_dictSet (m : List (String × User)) (k : String) (v : User)
    (hv : v.email = k) (h : ∀ p ∈ m, p.2.email = p.1) :
    ∀ p ∈ dictSet m k v, p.2.email = p.1 := by
  intro p hp
  unfold dictSet at hp
  by_cases hk : hasKey m k = true
  · rw [if_pos hk] at hp
    obtain ⟨q, hq, hqe⟩ := List.mem_map.mp hp
    by_cases hqk : q.1 = k
    · rw [if_pos hqk] at hqe
      rw [← hqe]
      exact hv
    · rw [if_neg hqk] at hqe
      rw [← hqe]
      exact h q hq
  · rw [if_neg hk] at hp
    rcases List.mem_append.mp hp with hin | hin
    · exact h p hin
    · rw [List.mem_singleton] at hin
      subst hin
      exact hv

theorem goodPairs_updStep (m : List (String × User)) (u : User)
    (h : ∀ p ∈ m, p.2.email = p.1) :
    ∀ p ∈ updStep m u, p.2.email = p.1 := by
  unfold updStep
  cases hl : lookupKey m u.email with
  | some old_v => exact goodPairs_dictSet m u.email (dumpUpdate old_v u) rfl h
  | none =>
    intro p hp
    rcases List.mem_append.mp hp with hin | hin
    · exact h p hin
    · rw [List.mem_singleton] at hin
      subst hin
      rfl

theorem foldl_preserve {α β : Type} (P : α → Prop) (step : α → β → α)
    (hstep : ∀ m u, P m → P (step m u)) :
    ∀ (l : List β) (m : α), P m → P (l.foldl step m) := by
  intro l
  induction l with
  | nil => intro m hm; exact hm
  | cons a l ih =>
    intro m hm
    exact ih (step m a) (hstep m a hm)

theorem add_users_invariant (old_users new_users : List User) :
    ((new_users.foldl updStep (old_users.foldl insStep [])).map Prod.fst).Nodup ∧
    (∀ p ∈ new_users.foldl updStep (old_users.foldl insStep []), p.2.email = p.1) := by
  have h0 : (([] : List (String × User)).map Prod.fst).Nodup ∧
      (∀ p ∈ ([] : List (String × User)), p.2.email = p.1) := by
    refine ⟨List.nodup_nil, ?_⟩
    intro p hp
    cases hp
  have h1 := foldl_preserve
    (fun m => (m.map Prod.fst).Nodup ∧ ∀ p ∈ m, p.2.email = p.1) insStep
    (fun m u hm => ⟨keys_dictSet_nodup m u.email u hm.1,
      goodPairs_dictSet m u.email u rfl hm.2⟩) old_users [] h0
  exact foldl_preserve
    (fun m => (m.map Prod.fst).Nodup ∧ ∀ p ∈ m, p.2.email = p.1) updStep
    (fun m u hm => ⟨keys_updStep_nodup m u hm.1, goodPairs_updStep m u hm.2⟩)
    new_users _ h1

theorem add_users_emails_nodup_general (old_users new_users : List User) :
    ((add_users old_users new_users).map User.email).Nodup := by
  obtain ⟨hk, hg⟩ := add_users_invariant old_users new_users
  have heq : (add_users old_users new_users).map User.email =
      (new_users.foldl updStep (old_users.foldl insStep [])).map Prod.fst := by
    rw [add_users, List.map_map]
    exact List.map_congr_left (fun p hp => hg p hp)
  rw [heq]
  exact hk

theorem mem_dictSet_of_mem_ne (m : List (String × User)) (k2 : String) (v2 : User)
    (k : String) (v : User) (hne : k ≠ k2) (h : (k, v) ∈ m) : (k, v) ∈ dictSet m k2 v2 := by
  unfold dictSet
  by_cases hk : hasKey m k2 = true
  · rw [if_pos hk]
    exact List.mem_map.mpr ⟨(k, v), h, if_neg hne⟩
  · rw [if_neg hk]
    exact List.mem_append.mpr (Or.inl h)

theorem updStep_eq_of_lookup_some (m : List (String × User)) (u v : User)
    (h : lookupKey m u.email = some v) :
    updStep m u = dictSet m u.email (dumpUpdate v u) := by
  unfold updStep
  rw [h]

theorem updStep_eq_of_lookup_none (m : List (String × User)) (u : User)
    (h : lookupKey m u.email = none) :
    updStep m u = m ++ [(u.email, u)] := by
  unfold updStep
  rw [h]

theorem mem_updStep_self (m : List (String × User)) (u : User) :
    (u.email, u) ∈ updStep m u := by
  cases hl : lookupKey m u.email with
  | some old_v =>
    rw [updStep_eq_of_lookup_some m u old_v hl]
    unfold dictSet
    rw [if_pos (hasKey_of_lookupKey_some m u.email old_v hl)]
    obtain ⟨p, hp, hpk⟩ := lookupKey_some_mem m u.email old_v hl
    refine List.mem_map.mpr ⟨p, hp, ?_⟩
    rw [if_pos hpk]
    rfl
  | none =>
    rw [updStep_eq_of_lookup_none m u hl]
    exact List.mem_append.mpr (Or.inr (List.mem_singleton.mpr rfl))

theorem mem_updStep_other (m : List (String × User)) (u : User) (k : String) (v : User)
    (hne : k ≠ u.email) (h : (k, v) ∈ m) : (k, v) ∈ updStep m u := by
  cases hl : lookupKey m u.email with
  | some old_v =>
    rw [updStep_eq_of_lookup_some m u old_v hl]
    exact mem_dictSet_of_mem_ne m u.email (dumpUpdate old_v u) k v hne h
  | none =>
    rw [updStep_eq_of_lookup_none m u hl]
    exact List.mem_append.mpr (Or.inl h)

theorem mem_foldl_updStep (new_users : List User) :
    ∀ (m : List (String × User)) (k : String) (v : User),
      (k, v) ∈ m → (∀ u ∈ new_users, u.email ≠ k) →
      (k, v) ∈ new_users.foldl updStep m := by
  induction new_users with
  | nil =>
    intro m k v h _
    exact h
  | cons a l ih =>
    intro m k v h hall
    exact ih (updStep m a) k v
      (mem_updStep_other m a k v (Ne.symm (hall a (List.mem_cons_self a l))) h)
      (fun u hu => hall u (List.mem_cons_of_mem a hu))

theorem mem_new_foldl (new_users : List User) :
    ∀ (m : List (String × User)) (n : User), n ∈ new_users →
      (new_users.map User.email).Nodup →
      (n.email, n) ∈ new_users.foldl updStep m := by
  induction new_users with
  | nil =>
    intro m n h _
    cases h
  | cons a l ih =>
    intro m n hn hnd
    rw [List.map_cons, List.nodup_cons] at hnd
    rcases List.mem_cons.mp hn with rfl | hmem
    · refine mem_foldl_updStep l (updStep m n) n.email n (mem_updStep_self m n) ?_
      intro u hu he
      exact hnd.1 (List.mem_map.mpr ⟨u, hu, he⟩)
    · exact ih (updStep m a) n hmem hnd.2

theorem mem_add_users_of_mem_new (old_users new_users : List User)
    (hnd : (new_users.map User.email).Nodup) (n : User) (hn : n ∈ new_users) :
    n ∈ add_users old_users new_users := by
  rw [add_users]
  exact List.mem_map.mpr ⟨(n.email, n), mem_new_foldl new_users _ n hn hnd, rfl⟩

/-- C2 amended: the merge reducer returns one record per identity key (the
result's identity keys are always pairwise distinct), but for an identity
present in both lists the result is the incoming record in its entirety —
`dict.update` over full model dumps overwrites every field, null-valued
incoming fields included, and `sources` is replaced by the new record's
sources, not unioned; an identity present only in the new list is inserted
as-is.  In particular every record of a duplicate-free new list appears
verbatim in the result. -/
theorem C2_amended_merge :
    (∀ old new : User, dumpUpdate old new = new) ∧
    (∀ old_users new_users : List User,
      ((add_users old_users new_users).map User.email).Nodup) ∧
    (∀ old_users new_users : List User, (new_users.map User.email).Nodup →
      ∀ n ∈ new_users, n ∈ add_users old_users new_users) :=
  ⟨fun _ _ => rfl, add_users_emails_nodup_general,
    fun o nl hnd n hn => mem_add_users_of_mem_new o nl hnd n hn⟩

/-- C2 counterexample: for an identity present in both lists, the old record's
non-null role is overwritten by the new record's null role, and sources is
replaced rather than unioned — contradicting the claimed non-null-overlay and
union-of-sources policy, which would yield role "CEO" and sources
["hunter", "prioritized"]. -/
theorem C2_counterexample :
    add_users [oldRec] [newRec] = [newRec] ∧
    oldRec.role = some "CEO" ∧ newRec.role = none ∧
    oldRec.sources = ["hunter"] ∧
    (add_users [oldRec] [newRec]).map User.sources = [["prioritized"]] := by
  decide

/-- C2 witness: the amended merge theorem applied to the concrete old/new
records with a shared identity. -/
theorem C2_amended_witness : newRec ∈ add_users [oldRec] [newRec] :=
  C2_amended_merge.2.2 [oldRec] [newRec] (by decide) newRec (by decide)

theorem hasKey_append_single (m : List (String × User)) (x : String × User) (k : String) :
    hasKey (m ++ [x]) k = (hasKey m k || (x.1 == k)) := by
  simp [hasKey, List.any_append]

theorem foldl_insStep_disjoint (S : List User) :
    ∀ m : List (String × User), (∀ u ∈ S, hasKey m u.email = false) →
      (S.map User.email).Nodup →
      S.foldl insStep m = m ++ S.map (fun u => (u.email, u)) := by
  induction S with
  | nil =>
    intro m _ _
    simp
  | cons a l ih =>
    intro m hdis hnd
    rw [List.map_cons, List.nodup_cons] at hnd
    have ha : insStep m a = m ++ [(a.email, a)] := by
      unfold insStep dictSet
      rw [if_neg]
      rw [hdis a (List.mem_cons_self a l)]
      exact Bool.false_ne_true
    rw [List.foldl_cons, ha, ih (m ++ [(a.email, a)]) ?_ hnd.2]
    · rw [List.append_assoc, List.singleton_append, List.map_cons]
    · intro u hu
      rw [hasKey_append_single, hdis u (List.mem_cons_of_mem a hu), Bool.false_or]
      rw [beq_eq_false_iff_ne]
      intro he
      exact hnd.1 (List.mem_map.mpr ⟨u, hu, he.symm⟩)

theorem lookupKey_map_pair (u : User) :
    ∀ S : List User, (S.map User.email).Nodup → u ∈ S →
      lookupKey (S.map (fun w => (w.email, w))) u.email = some u := by
  intro S
  induction S with
  | nil =>
    intro _ h
    cases h
  | cons a l ih =>
    intro hnd hu
    rw [List.map_cons, List.nodup_cons] at hnd
    rw [List.map_cons]
    by_cases h : a.email = u.email
    · rw [lookupKey, if_pos h]
      rcases List.mem_cons.mp hu with rfl | hmem
      · rfl
      · exfalso
        apply hnd.1
        rw [h]
        exact List.mem_map.mpr ⟨u, hmem, rfl⟩
    · rw [lookupKey, if_neg h]
      rcases List.mem_cons.mp hu with rfl | hmem
      · exact absurd rfl h
      · exact ih hnd.2 hmem

theorem replace_map_pair_self (u : User) (S : List User)
    (hnd : (S.map User.email).Nodup) (hu : u ∈ S) :
    (S.map (fun w => (w.email, w))).map
        (fun p => if p.1 = u.email then (u.email, u) else p)
      = S.map (fun w => (w.email, w)) := by
  rw [List.map_map]
  apply List.map_congr_left
  intro w hw
  show (if w.email = u.email then (u.email, u) else (w.email, w)) = (w.email, w)
  by_cases h : w.email = u.email
  · have hwu : w = u := List.inj_on_of_nodup_map hnd hw hu h
    subst hwu
    simp
  · simp [h]

theorem updStep_map_pair_fix (u : User) (S : List User)
    (hnd : (S.map User.email).Nodup) (hu : u ∈ S) :
    updStep (S.map (fun w => (w.email, w))) u = S.map (fun w => (w.email, w)) := by
  rw [updStep_eq_of_lookup_some _ u u (lookupKey_map_pair u S hnd hu)]
  unfold dictSet
  rw [if_pos (hasKey_of_lookupKey_some _ _ _ (lookupKey_map_pair u S hnd hu))]
  exact replace_map_pair_self u S hnd hu

theorem foldl_congr_fixed {α β : Type} (step : α → β → α) (m : α) :
    ∀ l : List β, (∀ u ∈ l, step m u = m) → l.foldl step m = m := by
  intro l
  induction l with
  | nil =>
    intro _
    rfl
  | cons a l ih =>
    intro h
    rw [List.foldl_cons, h a (List.mem_cons_self a l)]
    exact ih (fun u hu => h u (List.mem_cons_of_mem a hu))

/-- C8: the merge reducer is idempotent: merging a record set (a list with
pairwise-distinct identity keys, per the spec's identity-uniqueness invariant)
with itself yields that set unchanged — here even as exact list equality,
which is stronger than equality up to order. -/
theorem C8_merge_idempotent (S : List User) (hnd : (S.map User.email).Nodup) :
    add_users S S = S := by
  have h0 : S.foldl insStep [] = S.map (fun u => (u.email, u)) := by
    have h := foldl_insStep_disjoint S [] (fun u _ => rfl) hnd
    simpa using h
  have h1 : S.foldl updStep (S.map (fun u => (u.email, u)))
      = S.map (fun u => (u.email, u)) :=
    foldl_congr_fixed updStep _ S (fun u hu => updStep_map_pair_fix u S hnd hu)
  rw [add_users, h0, h1, List.map_map]
  calc S.map (Prod.snd ∘ fun u => (u.email, u)) = S.map id :=
        List.map_congr_left (fun u _ => rfl)
    _ = S := List.map_id S

/-- C8 witness: idempotence of the merge reducer at a concrete one-record
set. -/
theorem C8_witness : add_users [oldRec] [oldRec] = [oldRec] :=
  C8_merge_idempotent [oldRec] (by decide)

theorem prioritizeUser_email (pusers : List PriorityUser) (u v : User)
    (h : prioritizeUser pusers u = some v) : v.email = u.email := by
  unfold prioritizeUser at h
  cases hf : pusers.find? (fun p => p.email == u.email) with
  | none =>
    rw [hf] at h
    cases h
  | some p =>
    rw [hf] at h
    injection h with h2
    rw [← h2]

theorem prioritizeUser_role (pusers : List PriorityUser) (u v : User)
    (h : prioritizeUser pusers u = some v) : v.role = u.role := by
  unfold prioritizeUser at h
  cases hf : pusers.find? (fun p => p.email == u.email) with
  | none =>
    rw [hf] at h
    cases h
  | some p =>
    rw [hf] at h
    injection h with h2
    rw [← h2]

theorem enrichUser_email (lport : String → Except String String) (u v : User)
    (h : enrichUser lport u = some v) : v.email = u.email := by
  unfold enrichUser at h
  cases hp : lport (urlOf u) with
  | ok d =>
    rw [hp] at h
    injection h with h2
    rw [← h2]
  | error e =>
    rw [hp] at h
    cases h

theorem analyzeUser_email (types : List String) (aport : User → String → Except String String)
    (u v : User) (h : analyzeUser types aport u = some v) : v.email = u.email := by
  unfold analyzeUser at h
  cases hr : u.linkedin_raw with
  | some raw =>
    rw [hr] at h
    injection h with h2
    rw [← h2]
  | none =>
    rw [hr] at h
    cases h

theorem emails_filterMap_sublist (f : User → Option User)
    (hf : ∀ u v, f u = some v → v.email = u.email) :
    ∀ l : List User, ((l.filterMap f).map User.email).Sublist (l.map User.email) := by
  intro l
  induction l with
  | nil => simp
  | cons a l ih =>
    rw [List.filterMap_cons]
    cases h : f a with
    | none =>
      rw [List.map_cons]
      exact ih.cons a.email
    | some v =>
      rw [List.map_cons, List.map_cons, hf a v h]
      exact ih.cons₂ a.email

theorem collect_emails_nodup (hunter : Except String (List Contact)) (st : AgentState)
    (h : ∀ contacts, hunter = Except.ok contacts → (contacts.map Contact.value).Nodup) :
    ((collect_hunter_data hunter st).users.map User.email).Nodup := by
  cases hunter with
  | ok contacts =>
    have heq : (collect_hunter_data (Except.ok contacts) st).users.map User.email
        = contacts.map Contact.value := by
      show (contacts.map contactToUser).map User.email = contacts.map Contact.value
      rw [List.map_map]
      exact List.map_congr_left (fun c _ => rfl)
    rw [heq]
    exact h contacts rfl
  | error e => exact List.nodup_nil

theorem prioritize_emails_nodup (sport : Except String (List PriorityUserRaw))
    (st : AgentState) (h : (st.users.map User.email).Nodup) :
    ((prioritize_users sport st).users.map User.email).Nodup := by
  unfold prioritize_users
  dsimp only
  split
  · exact List.nodup_nil
  · split
    · refine List.Nodup.sublist ?_ h
      refine (emails_filterMap_sublist _ ?_ _).trans ((List.filter_sublist _).map _)
      intro u v hv
      exact prioritizeUser_email _ u v hv
    · exact h

theorem get_linkedin_emails_nodup (lport : String → Except String String)
    (st : AgentState) (h : (st.users.map User.email).Nodup) :
    ((get_linkedin_data lport st).users.map User.email).Nodup := by
  unfold get_linkedin_data
  dsimp only
  split
  · exact h
  · split
    · exact h
    · refine List.Nodup.sublist ?_ h
      refine (emails_filterMap_sublist _ ?_ _).trans ((List.filter_sublist _).map _)
      intro u v hv
      exact enrichUser_email lport u v hv

theorem analyze_emails_nodup (types : List String)
    (aport : User → String → Except String String)
    (st : AgentState) (h : (st.users.map User.email).Nodup) :
    ((analyze_profiles types aport st).users.map User.email).Nodup := by
  unfold analyze_profiles
  dsimp only
  split
  · exact h
  · split
    · exact h
    · refine List.Nodup.sublist ?_ h
      refine (emails_filterMap_sublist _ ?_ _).trans ((List.filter_sublist _).map _)
      intro u v hv
      exact analyzeUser_email types aport u v hv

/-- C7 amended: the record list returned by a full pipeline run contains no two
records with the same identity key provided the raw discovery data itself
contains no duplicate emails; the pipeline never deduplicates (the merge
reducer of reducers.py is not wired into the workflow state), so duplicates in
the raw data do flow through to the caller. -/
theorem C7_amended_no_duplicates (hunter : Except String (List Contact))
    (sport : Except String (List PriorityUserRaw))
    (lport : String → Except String String)
    (types : List String) (aport : User → String → Except String String)
    (cfg : SearchConfig)
    (h : ∀ contacts, hunter = Except.ok contacts → (contacts.map Contact.value).Nodup) :
    ((runPipeline hunter sport lport types aport cfg).users.map User.email).Nodup := by
  unfold runPipeline
  dsimp only
  exact analyze_emails_nodup types aport _
    (get_linkedin_emails_nodup lport _
      (prioritize_emails_nodup sport _
        (collect_emails_nodup hunter _ h)))

/-- C7 counterexample: a run on discovery data containing the same contact
twice returns two records with the same identity key — the pipeline performs
no deduplication, contradicting the claim for arbitrary raw data. -/
theorem C7_counterexample :
    ¬ ((runPipeline (Except.ok [cDup, cDup]) (Except.ok [praDup]) portOk []
          aportFail cfg0).users.map User.email).Nodup := by
  decide

/-- C7 witness: the amended theorem applied to a concrete run whose raw
discovery data is duplicate-free. -/
theorem C7_amended_witness :
    ((runPipeline (Except.ok [cDup]) (Except.ok [praDup]) portOk []
        aportFail cfg0).users.map User.email).Nodup :=
  C7_amended_no_duplicates (Except.ok [cDup]) (Except.ok [praDup]) portOk [] aportFail cfg0
    (fun contacts hc => by
      injection hc with h2
      rw [← h2]
      decide)

/-- C1 amended: ineligible records do not in general pass through a stage
unchanged.  The scoring stage either returns its input list unchanged (the
aggregate-call failure branch) or returns only records with truthy roles, so
role-less records are dropped from every non-failure output; the enrichment
stage passes its input through unchanged exactly when no eligible record is
successfully enriched, and otherwise outputs only successfully enriched
records, dropping every ineligible record. -/
theorem C1_amended_passthrough :
    (∀ (sport : Except String (List PriorityUserRaw)) (st : AgentState),
      (prioritize_users sport st).users = st.users ∨
      ∀ u ∈ (prioritize_users sport st).users, truthyOpt u.role = true) ∧
    (∀ (lport : String → Except String String) (st : AgentState),
      ((st.users.filter enrichEligible).filterMap (enrichUser lport)).isEmpty = true →
      (get_linkedin_data lport st).users = st.users) ∧
    (∀ (lport : String → Except String String) (st : AgentState) (u : User),
      u ∈ st.users → enrichEligible u = false →
      ((st.users.filter enrichEligible).filterMap (enrichUser lport)).isEmpty = false →
      u ∉ (get_linkedin_data lport st).users) := by
  refine ⟨?_, ?_, ?_⟩
  · intro sport st
    unfold prioritize_users
    dsimp only
    split
    · right
      intro u hu
      exact absurd hu (List.not_mem_nil u)
    · split
      · right
        intro u hu
        obtain ⟨w, hw, hsome⟩ := List.mem_filterMap.mp hu
        have hrole := (List.mem_filter.mp hw).2
        rw [prioritizeUser_role _ w u hsome]
        exact hrole
      · left
        rfl
  · intro lport st hemp
    unfold get_linkedin_data
    dsimp only
    split
    · rfl
    · simp [hemp]
  · intro lport st u hu hinel hne
    have hfilne : st.users.filter enrichEligible ≠ [] := by
      intro hc
      rw [hc] at hne
      simp at hne
    have hfe : ¬ ((st.users.filter enrichEligible).isEmpty = true) := by
      intro hc
      exact hfilne (List.isEmpty_iff.mp hc)
    have hee : ¬ (((st.users.filter enrichEligible).filterMap (enrichUser lport)).isEmpty = true) := by
      intro hc
      rw [hne] at hc
      cases hc
    have husers : (get_linkedin_data lport st).users =
        (st.users.filter enrichEligible).filterMap (enrichUser lport) := by
      simp only [get_linkedin_data, eq_false hfe, if_false, eq_false hee]
    rw [husers]
    intro hmem
    obtain ⟨w, hw, hsome⟩ := List.mem_filterMap.mp hmem
    have hwe : enrichEligible w = true := (List.mem_filter.mp hw).2
    have hue : enrichEligible u = true := by
      unfold enrichUser at hsome
      cases hp : lport (urlOf w) with
      | error e =>
        rw [hp] at hsome
        cases hsome
      | ok d =>
        rw [hp] at hsome
        injection hsome with h2
        rw [← h2]
        have hconj := (enrichEligible_iff w).mp hwe
        apply (enrichEligible_iff _).mpr
        exact ⟨List.mem_append.mpr (Or.inl hconj.1), hconj.2⟩
    rw [hinel] at hue
    cases hue

/-- C1 counterexample: a record with no role (ineligible for the scoring
stage) present in the stage input is absent from the scoring stage's output,
contradicting the claim that ineligible records appear unchanged in every
stage's output. -/
theorem C1_counterexample :
    uNoRole ∈ stNoRole.users ∧ truthyOpt uNoRole.role = false ∧
    uNoRole ∉ (prioritize_users (Except.ok [praDup]) stNoRole).users := by
  decide

/-- C1 witness: the amended theorem's enrichment part applied to a concrete
state with one ineligible and one successfully enriched record. -/
theorem C1_amended_witness :
    uNoRole ∉ (get_linkedin_data portOk stMix).users :=
  C1_amended_passthrough.2.2 portOk stMix uNoRole (by decide) (by decide) (by decide)

end ProspectAgent

